import Mathlib

/-!
Shallow embedding of the `hf-model-tracker` ingestion core:
`src/core_samples/fetch_models.py` (class `ModelFetcher`) and
`src/schemas/db_models.py` (pydantic schemas).

JSON values are modelled by `Val` (numbers as integers, a stated modelling
choice; the fields the claims exercise are integer-valued).  A decoded JSON
object is an association list of string keys (`Record`); Python dicts produced
by `json.loads` never carry duplicate keys, and every operation below reads
them through first-match lookup, which agrees with Python on that subspace.

The HTTP world is an oracle mapping a request (query params, headers, timeout)
to an outcome.  The `requests` exceptions are collapsed into `timeout`
(`requests.exceptions.Timeout`) versus `error` (any other exception: a
connection failure, the `raise_for_status` of a non-2xx reply, or a body that
fails to JSON-decode) — exactly the two handler classes in the source.

A Python exception the source does not catch (an `AttributeError` from
`model.get` on a non-dict list item, a `TypeError` from an unhashable dict
key) is modelled by `Option`: `none` means the exception propagates.
-/

namespace HFTracker

/-- JSON-like values (numbers restricted to integers). -/
inductive Val where
  | null : Val
  | bool : Bool → Val
  | int : Int → Val
  | str : String → Val
  | list : List Val → Val
  | obj : List (String × Val) → Val

/-- A decoded JSON object: the raw model dict flowing through the pipeline. -/
abbrev Record := List (String × Val)

/-- Python `dict.get(key)` on a decoded JSON object: `None` when missing. -/
def pyGet (m : Record) (k : String) : Option Val :=
  match m with
  | [] => none
  | (k1, v) :: rest => if k1 = k then some v else pyGet rest k

/-- A hashable JSON scalar usable as a Python dict key.  Python key equality
collapses `True`/`False` with `1`/`0` (`hash(True) == hash(1)`, `True == 1`),
so booleans are normalised to integers at key formation. -/
inductive PyKey where
  | int : Int → PyKey
  | str : String → PyKey
  deriving DecidableEq

/-- The dict key computed by `unique_models[model.get("id")] = model`
(fetch_models.py line 113 and the three analogous lines).
Python's `model.get("id")` yields `None` both when the field is missing and
when it is JSON `null`; both map to the sentinel key `none`.  An `"id"` value
that is itself a JSON array or object is unhashable, so the assignment raises
`TypeError`: that is the outer `none` (crash). -/
def recordKey (m : Record) : Option (Option PyKey) :=
  match pyGet m "id" with
  | none => some none
  | some .null => some none
  | some (.bool b) => some (some (.int (if b then 1 else 0)))
  | some (.int n) => some (some (.int n))
  | some (.str s) => some (some (.str s))
  | some (.list _) => none
  | some (.obj _) => none

/-- The in-progress `unique_models` dict: insertion-ordered key/value pairs. -/
abbrev MDict := List (Option PyKey × Record)

/-- The key column of the dict, in insertion order. -/
def keys (d : MDict) : List (Option PyKey) := d.map (fun p => p.1)

/-- Overwrite the value stored under an existing key, keeping its position. -/
def replaceKey (d : MDict) (k : Option PyKey) (v : Record) : MDict :=
  match d with
  | [] => []
  | (k1, v1) :: rest =>
      if k1 = k then (k, v) :: replaceKey rest k v
      else (k1, v1) :: replaceKey rest k v

/-- Python dict assignment `d[k] = v`: replace in place when the key exists
(keeping its position), otherwise append at the end. -/
def dictSet (d : MDict) (k : Option PyKey) (v : Record) : MDict :=
  if k ∈ keys d then replaceKey d k v else d ++ [(k, v)]

/-- Python dict lookup by key. -/
def dictGet (d : MDict) (k : Option PyKey) : Option Record :=
  match d with
  | [] => none
  | (k1, v) :: rest => if k1 = k then some v else dictGet rest k

/-- One iteration of the merge loop body:
`unique_models[model.get("id")] = model`; `none` = `TypeError` on an
unhashable key. -/
def insertModel (d : MDict) (m : Record) : Option MDict :=
  (recordKey m).map (fun k => dictSet d k m)

/-- One phase's `for model in ...:` loop over its returned records. -/
def insertPhase (d : MDict) (ms : List Record) : Option MDict :=
  ms.foldlM insertModel d

/-- Outcome of one `requests.get` call, after `raise_for_status` and JSON
decoding: `timeout` is `requests.exceptions.Timeout`; `error` is any other
exception (connection failure, non-2xx status, undecodable body); `ok body`
is a 2xx reply with decoded JSON `body`. -/
inductive HttpResult where
  | timeout : HttpResult
  | error : HttpResult
  | ok : Val → HttpResult

/-- The HTTP world: maps (query params, headers, timeout) to an outcome.
All requests in the source go to the single fixed BASE_URL. -/
abbrev HttpGet := List (String × Val) → List (String × String) → Int → HttpResult

/-- `ModelFetcher` configuration state set in `__init__` (lines 33–35). -/
structure Fetcher where
  timeout : Int
  headers : List (String × String)
  deriving DecidableEq

/-- `ModelFetcher.__init__`: `timeout` stored as given; headers carry the
bearer token only when `HF_TOKEN` is set and truthy (non-empty). -/
def ModelFetcher.init (hf_token : Option String) (timeout : Int) : Fetcher :=
  ⟨timeout,
   match hf_token with
   | some t => if t = "" then [] else [("Authorization", "Bearer " ++ t)]
   | none => []⟩

/-- Query params built by `fetch_global_top_models` (lines 50–55). -/
def globalParams (limit : Int) (sort_by : String) : List (String × Val) :=
  [("limit", .int limit), ("sort", .str sort_by),
   ("direction", .int (-1)), ("full", .bool true)]

/-- Query params built by `fetch_category_specific` (lines 83–88). -/
def catParams (pipeline_tag library : String) (limit : Int) : List (String × Val) :=
  [("pipeline_tag", .str pipeline_tag), ("library", .str library),
   ("limit", .int limit), ("sort", .str "downloads")]

/-- `ModelFetcher.fetch_global_top_models` (lines 37–77): one GET with the
configured headers and timeout; on a decoded list return it, on a decoded
non-list return `[]`, on `Timeout` return `[]`, on any other exception
return `[]`. -/
def fetch_global_top_models (http : HttpGet) (self : Fetcher)
    (limit : Int) (sort_by : String) : List Val :=
  match http (globalParams limit sort_by) self.headers self.timeout with
  | .ok (.list data) => data
  | .ok _ => []
  | .timeout => []
  | .error => []

/-- `ModelFetcher.fetch_category_specific` (lines 79–102): one GET with the
configured headers and a hard-coded timeout of 25; on success the decoded
body is returned unchanged (there is no `isinstance(data, list)` check in
this method); any exception yields `[]`. -/
def fetch_category_specific (http : HttpGet) (self : Fetcher)
    (pipeline_tag library : String) (limit : Int) : Val :=
  match http (catParams pipeline_tag library limit) self.headers 25 with
  | .ok body => body
  | .timeout => .list []
  | .error => .list []

/-- Iterating a decoded phase result in the merge loop calls `.get` on each
item, which raises `AttributeError` unless the item is a dict. -/
def asRecord (v : Val) : Option Record :=
  match v with
  | .obj fields => some fields
  | _ => none

/-- A whole phase's items as dicts; `none` when some item is not a dict
(the loop would raise before finishing). -/
def asRecords (vs : List Val) : Option (List Record) :=
  vs.mapM asRecord

/-- `ModelFetcher.run_etl_pipeline` (lines 104–131): four global fetches in
fixed order, each merged into `unique_models` by id; returns
`list(unique_models.values())`.  `none` models an uncaught exception from the
merge loop (non-dict item or unhashable id). -/
def run_etl_pipeline (http : HttpGet) (self : Fetcher) : Option (List Record) := do
  let p1 ← asRecords (fetch_global_top_models http self 1000 "downloads")
  let d1 ← insertPhase [] p1
  let p2 ← asRecords (fetch_global_top_models http self 1000 "likes")
  let d2 ← insertPhase d1 p2
  let p3 ← asRecords (fetch_global_top_models http self 1000 "likes7d")
  let d3 ← insertPhase d2 p3
  let p4 ← asRecords (fetch_global_top_models http self 100 "createdAt")
  let d4 ← insertPhase d3 p4
  pure (d4.map (fun p => p.2))

/-- The HTTP request issued by one call of `fetch_global_top_models`. -/
structure Request where
  params : List (String × Val)
  headers : List (String × String)
  timeout : Int

/-- The request `fetch_global_top_models` sends for given arguments. -/
def fetch_global_request (self : Fetcher) (limit : Int) (sort_by : String) : Request :=
  ⟨globalParams limit sort_by, self.headers, self.timeout⟩

/-- The sequence of HTTP requests `run_etl_pipeline` issues, in program
order: its control flow is straight-line, one unconditional GET per phase
(lines 110–128). -/
def run_etl_requests (self : Fetcher) : List Request :=
  [fetch_global_request self 1000 "downloads",
   fetch_global_request self 1000 "likes",
   fetch_global_request self 1000 "likes7d",
   fetch_global_request self 100 "createdAt"]

/-!  State-passing view of the `ModelFetcher` methods.  Python method calls
receive the object and may assign to its attributes; the bodies of
`fetch_global_top_models`, `fetch_category_specific` and `run_etl_pipeline`
only ever read `self.timeout` / `self.headers` (no attribute assignment
occurs outside `__init__`), so each method is: read the state, compute. -/

/-- `fetch_global_top_models` as a state-threading method on the fetcher. -/
def fetch_global_top_modelsM (http : HttpGet) (limit : Int) (sort_by : String) :
    StateM Fetcher (List Val) := do
  let self ← get
  pure (fetch_global_top_models http self limit sort_by)

/-- `fetch_category_specific` as a state-threading method on the fetcher. -/
def fetch_category_specificM (http : HttpGet) (pipeline_tag library : String)
    (limit : Int) : StateM Fetcher Val := do
  let self ← get
  pure (fetch_category_specific http self pipeline_tag library limit)

/-- `run_etl_pipeline` as a state-threading method on the fetcher; its
`unique_models` dict is a local variable created at line 108 on every call,
not part of the object state. -/
def run_etl_pipelineM (http : HttpGet) : StateM Fetcher (Option (List Record)) := do
  let self ← get
  pure (run_etl_pipeline http self)

/-!  The pydantic schemas of `src/schemas/db_models.py`, at the typed level:
an input field is `some x` when supplied with a type-correct value and `none`
when omitted.  Timestamps are epoch integers. -/

/-- Timestamps (epoch-style integers; only defaulting behaviour matters). -/
abbrev Timestamp := Int

/-- `HFModel` (db_models.py lines 20–38): the validated record.  The source
field `private` is a Lean keyword and is embedded as `private_flag`. -/
structure HFModel where
  model_id : String
  pipeline_tag : Option String
  library_name : Option String
  author : Option String
  downloads : Int
  likes : Int
  private_flag : Bool
  is_active : Bool
  last_modified : Option Timestamp
  created_at : Timestamp
  deriving DecidableEq

/-- Validation/construction of `HFModel` from type-correct optional inputs,
with `now` the clock reading taken by the `default_factory=datetime.now` of
`created_at`.  `model_id` is the only required field (`Field(...)`); the
declared defaults are `downloads = 0`, `likes = 0`, `private = False`,
`is_active = True`, `last_modified = None`, `created_at = now`.  No field
carries any numeric range constraint in the source. -/
def HFModel.validate (model_id : Option String)
    (pipeline_tag library_name author : Option String)
    (downloads likes : Option Int) (private_flag is_active : Option Bool)
    (last_modified created_at : Option Timestamp) (now : Timestamp) :
    Option HFModel :=
  match model_id with
  | none => none
  | some mid =>
      some ⟨mid, pipeline_tag, library_name, author,
            downloads.getD 0, likes.getD 0, private_flag.getD false,
            is_active.getD true, last_modified, created_at.getD now⟩

/-!  Concrete fixtures used by counterexamples and witnesses. -/

/-- A default-constructed fetcher: `ModelFetcher()` with no token. -/
def fetcher45 : Fetcher := ⟨45, []⟩

/-- An HTTP world in which every request times out. -/
def httpDown : HttpGet := fun _ _ _ => .timeout

/-- An HTTP world agreeing with `httpDown` on every request sent with
timeout 45 but differing elsewhere. -/
def httpDown2 : HttpGet := fun _ _ t => if t = 45 then .timeout else .error

/-- An HTTP world returning a 2xx reply whose decoded body is an error
object (a JSON object, not a list). -/
def httpErrObj : HttpGet := fun _ _ _ =>
  .ok (.obj [("error", .str "Invalid username or password.")])

/-- Record `{"id": "a", "downloads": 10}` of the spec scenario. -/
def recA1 : Record := [("id", .str "a"), ("downloads", .int 10)]

/-- Record `{"id": "a", "downloads": 0, "likes": 99}` of the spec scenario. -/
def recA2 : Record := [("id", .str "a"), ("downloads", .int 0), ("likes", .int 99)]

/-- Record `{"id": "b"}` of the spec scenario. -/
def recB : Record := [("id", .str "b")]

/-- The spec scenario's HTTP world: the four phases return `[recA1]`,
`[recA2]`, `[]`, `[recB]` respectively (dispatch on the `sort` param). -/
def httpScenario : HttpGet := fun params _ _ =>
  match params with
  | [_, ("sort", .str s), _, _] =>
      if s = "downloads" then .ok (.list [.obj recA1])
      else if s = "likes" then .ok (.list [.obj recA2])
      else if s = "likes7d" then .ok (.list [])
      else .ok (.list [.obj recB])
  | _ => .error

/-- A malformed record with no `"id"` field at all. -/
def recM1 : Record := [("x", .int 1)]

/-- A malformed record with `"id": null`. -/
def recM2 : Record := [("id", .null), ("y", .int 2)]

/-- An HTTP world whose first phase returns the two malformed records and
whose other phases return nothing. -/
def httpMalformed : HttpGet := fun params _ _ =>
  match params with
  | [_, ("sort", .str s), _, _] =>
      if s = "downloads" then .ok (.list [.obj recM1, .obj recM2])
      else .ok (.list [])
  | _ => .error

/-!  Specification-side observers of the merge. -/

/-- Key accumulation of one dict assignment: keep the key list when the key
is already present, else append it. -/
def insert1 (acc : List (Option PyKey)) (k : Option PyKey) : List (Option PyKey) :=
  if k ∈ acc then acc else acc ++ [k]

/-- Key list after a whole run of assignments, seeded with `acc`. -/
def foldKeys (acc : List (Option PyKey)) (ks : List (Option PyKey)) :
    List (Option PyKey) :=
  ks.foldl insert1 acc

/-- The keys a list of records produces, in order (crashing records have no
key and are skipped; the claims only use this under a no-crash hypothesis). -/
def keysOf (ms : List Record) : List (Option PyKey) :=
  ms.filterMap recordKey

/-- The last record in `ms` whose dict key is `k` (last-write-wins value). -/
def lastWith (ms : List Record) (k : Option PyKey) : Option Record :=
  match ms with
  | [] => none
  | m :: rest =>
      match lastWith rest k with
      | some r => some r
      | none => if recordKey m = some k then some m else none

/-- Every stored value's own key agrees with the key it is stored under. -/
def Coherent (d : MDict) : Prop := ∀ p ∈ d, recordKey p.2 = some p.1

/-!  Dict-level lemmas. -/

lemma keys_replaceKey (d : MDict) (k : Option PyKey) (v : Record) :
    keys (replaceKey d k v) = keys d := by
  induction d with
  | nil => rfl
  | cons a t ih =>
      obtain ⟨ka, va⟩ := a
      by_cases h : ka = k <;> simp [replaceKey, keys, h] <;>
        simpa [keys] using ih

lemma keys_dictSet (d : MDict) (k : Option PyKey) (v : Record) :
    keys (dictSet d k v) = insert1 (keys d) k := by
  by_cases h : k ∈ keys d
  · rw [dictSet, if_pos h, insert1, if_pos h]
    exact keys_replaceKey d k v
  · rw [dictSet, if_neg h, insert1, if_neg h]
    simp [keys]

lemma mem_insert1 (acc : List (Option PyKey)) (k k1 : Option PyKey) :
    k1 ∈ insert1 acc k ↔ k1 ∈ acc ∨ k1 = k := by
  unfold insert1
  split
  · next h =>
      constructor
      · exact Or.inl
      · rintro (h1 | rfl)
        · exact h1
        · exact h
  · simp

lemma nodup_insert1 (acc : List (Option PyKey)) (k : Option PyKey)
    (h : acc.Nodup) : (insert1 acc k).Nodup := by
  unfold insert1
  split
  · exact h
  · next hk => simp [List.nodup_append, h, hk]

lemma dictGet_eq_none_of_not_mem (d : MDict) (k : Option PyKey)
    (h : k ∉ keys d) : dictGet d k = none := by
  induction d with
  | nil => rfl
  | cons a t ih =>
      obtain ⟨ka, va⟩ := a
      have h1 : ka ≠ k := by
        intro hh
        exact h (by simp [keys, hh])
      have h2 : k ∉ keys t := by
        intro hh
        exact h (by simp [keys] at hh ⊢; exact Or.inr hh)
      simpa [dictGet, h1] using ih h2

lemma dictGet_append (d1 d2 : MDict) (k : Option PyKey) :
    dictGet (d1 ++ d2) k =
      match dictGet d1 k with
      | some r => some r
      | none => dictGet d2 k := by
  induction d1 with
  | nil => simp [dictGet]
  | cons a t ih =>
      obtain ⟨ka, va⟩ := a
      by_cases h : ka = k <;> simp [dictGet, h, ih]

lemma keys_cons (ka : Option PyKey) (va : Record) (t : MDict) :
    keys ((ka, va) :: t) = ka :: keys t := rfl

lemma dictGet_replaceKey (d : MDict) (k : Option PyKey) (v : Record)
    (k1 : Option PyKey) :
    dictGet (replaceKey d k v) k1 =
      if k1 = k then (if k ∈ keys d then some v else none)
      else dictGet d k1 := by
  induction d with
  | nil => simp [replaceKey, dictGet, keys]
  | cons a t ih =>
      obtain ⟨ka, va⟩ := a
      by_cases h1 : ka = k
      · by_cases h2 : k1 = k
        · simp [replaceKey, dictGet, keys_cons, List.mem_cons, h1, h2]
        · have h3 : ¬ (ka = k1) := fun hh => h2 (hh.symm.trans h1)
          have h4 : ¬ (k = k1) := fun hh => h2 hh.symm
          simp [replaceKey, dictGet, keys_cons, List.mem_cons, h1, h2, h3, h4, ih]
      · by_cases h2 : ka = k1
        · have hk1 : ¬ (k1 = k) := fun hh => h1 (h2.trans hh)
          simp [replaceKey, dictGet, h1, h2, hk1]
        · have h5 : ¬ (k = ka) := fun hh => h1 hh.symm
          simp [replaceKey, dictGet, keys_cons, List.mem_cons, h1, h2, h5, ih]

lemma dictGet_dictSet (d : MDict) (k : Option PyKey) (v : Record)
    (k1 : Option PyKey) :
    dictGet (dictSet d k v) k1 = if k1 = k then some v else dictGet d k1 := by
  by_cases h : k ∈ keys d
  · rw [dictSet, if_pos h, dictGet_replaceKey]
    simp [h]
  · rw [dictSet, if_neg h, dictGet_append]
    by_cases h2 : k1 = k
    · subst h2
      rw [dictGet_eq_none_of_not_mem d k1 h]
      simp [dictGet]
    · have h3 : ¬ (k = k1) := fun hh => h2 hh.symm
      cases hg : dictGet d k1 <;> simp [dictGet, h2, h3, hg]

lemma mem_replaceKey (d : MDict) (k : Option PyKey) (v : Record)
    (p : Option PyKey × Record) (hp : p ∈ replaceKey d k v) :
    p = (k, v) ∨ p ∈ d := by
  induction d with
  | nil => simp [replaceKey] at hp
  | cons a t ih =>
      obtain ⟨ka, va⟩ := a
      by_cases h : ka = k
      · rw [replaceKey, if_pos h] at hp
        rcases List.mem_cons.mp hp with rfl | hp2
        · exact Or.inl rfl
        · rcases ih hp2 with h3 | h3
          · exact Or.inl h3
          · exact Or.inr (List.mem_cons_of_mem _ h3)
      · rw [replaceKey, if_neg h] at hp
        rcases List.mem_cons.mp hp with rfl | hp2
        · exact Or.inr (List.mem_cons_self _ _)
        · rcases ih hp2 with h3 | h3
          · exact Or.inl h3
          · exact Or.inr (List.mem_cons_of_mem _ h3)

lemma coherent_dictSet (d : MDict) (k : Option PyKey) (v : Record)
    (hd : Coherent d) (hv : recordKey v = some k) :
    Coherent (dictSet d k v) := by
  unfold dictSet
  split
  · intro p hp
    rcases mem_replaceKey d k v p hp with rfl | h2
    · exact hv
    · exact hd p h2
  · intro p hp
    rcases List.mem_append.mp hp with h | h
    · exact hd p h
    · rcases List.mem_singleton.mp h with rfl
      exact hv

lemma dictGet_eq_some_of_mem (d : MDict) (k : Option PyKey) (m : Record)
    (hnd : (keys d).Nodup) (hm : (k, m) ∈ d) : dictGet d k = some m := by
  induction d with
  | nil => cases hm
  | cons a t ih =>
      obtain ⟨ka, va⟩ := a
      have hnd1 : ka ∉ keys t := (List.nodup_cons.mp (by simpa [keys] using hnd)).1
      have hnd2 : (keys t).Nodup := (List.nodup_cons.mp (by simpa [keys] using hnd)).2
      rcases List.mem_cons.mp hm with heq | hm2
      · rw [Prod.mk.injEq] at heq
        simp [dictGet, heq.1, heq.2]
      · have hk : k ∈ keys t := List.mem_map.mpr ⟨(k, m), hm2, rfl⟩
        have ha : ka ≠ k := fun hh => hnd1 (hh ▸ hk)
        simpa [dictGet, ha] using ih hnd2 hm2

/-!  Merge-loop lemmas. -/

lemma insertPhase_nil (d : MDict) : insertPhase d [] = some d := rfl

lemma insertPhase_cons (d : MDict) (m : Record) (ms : List Record) :
    insertPhase d (m :: ms) =
      (insertModel d m).bind (fun d1 => insertPhase d1 ms) := rfl

lemma insertPhase_some_cons {d d2 : MDict} {m : Record} {ms : List Record}
    (h : insertPhase d (m :: ms) = some d2) :
    ∃ k, recordKey m = some k ∧ insertPhase (dictSet d k m) ms = some d2 := by
  rw [insertPhase_cons] at h
  cases hk : recordKey m with
  | none =>
      rw [insertModel, hk] at h
      simp at h
  | some k =>
      refine ⟨k, rfl, ?_⟩
      rw [insertModel, hk] at h
      simpa using h

lemma insertPhase_append (d : MDict) (ms1 ms2 : List Record) :
    insertPhase d (ms1 ++ ms2) =
      (insertPhase d ms1).bind (fun d1 => insertPhase d1 ms2) := by
  induction ms1 generalizing d with
  | nil => simp [insertPhase_nil]
  | cons m t ih =>
      rw [List.cons_append, insertPhase_cons, insertPhase_cons]
      cases h1 : insertModel d m with
      | none => simp
      | some d1 => simp [ih]

lemma coherent_insertPhase {ms : List Record} {d d2 : MDict}
    (h : insertPhase d ms = some d2) (hd : Coherent d) : Coherent d2 := by
  induction ms generalizing d with
  | nil =>
      rw [insertPhase_nil] at h
      injection h with h
      subst h
      exact hd
  | cons m t ih =>
      obtain ⟨k, hk, h2⟩ := insertPhase_some_cons h
      exact ih h2 (coherent_dictSet d k m hd hk)

lemma nodup_keys_insertPhase {ms : List Record} {d d2 : MDict}
    (h : insertPhase d ms = some d2) (hd : (keys d).Nodup) :
    (keys d2).Nodup := by
  induction ms generalizing d with
  | nil =>
      rw [insertPhase_nil] at h
      injection h with h
      subst h
      exact hd
  | cons m t ih =>
      obtain ⟨k, hk, h2⟩ := insertPhase_some_cons h
      refine ih h2 ?_
      rw [keys_dictSet]
      exact nodup_insert1 (keys d) k hd

lemma keys_insertPhase {ms : List Record} {d d2 : MDict}
    (h : insertPhase d ms = some d2) :
    keys d2 = foldKeys (keys d) (keysOf ms) := by
  induction ms generalizing d with
  | nil =>
      rw [insertPhase_nil] at h
      injection h with h
      subst h
      simp [keysOf, foldKeys]
  | cons m t ih =>
      obtain ⟨k, hk, h2⟩ := insertPhase_some_cons h
      rw [ih h2, keys_dictSet]
      simp [keysOf, List.filterMap_cons, hk, foldKeys]

lemma dictGet_insertPhase {ms : List Record} {d d2 : MDict}
    (h : insertPhase d ms = some d2) (k1 : Option PyKey) :
    dictGet d2 k1 =
      match lastWith ms k1 with
      | some r => some r
      | none => dictGet d k1 := by
  induction ms generalizing d with
  | nil =>
      rw [insertPhase_nil] at h
      injection h with h
      subst h
      simp [lastWith]
  | cons m t ih =>
      obtain ⟨k, hk, h2⟩ := insertPhase_some_cons h
      rw [ih h2]
      cases hl : lastWith t k1 with
      | some r => simp [lastWith, hl]
      | none =>
          rw [dictGet_dictSet]
          by_cases h3 : k1 = k
          · subst h3
            simp [lastWith, hl, hk]
          · have h4 : ¬ (recordKey m = some k1) := by
              rw [hk]
              intro hh
              injection hh with hh
              exact h3 hh.symm
            simp [lastWith, hl, h3, h4]

lemma mem_foldKeys (ks acc : List (Option PyKey)) (k1 : Option PyKey) :
    k1 ∈ foldKeys acc ks ↔ k1 ∈ acc ∨ k1 ∈ ks := by
  induction ks generalizing acc with
  | nil => simp [foldKeys]
  | cons k t ih =>
      have hstep : foldKeys acc (k :: t) = foldKeys (insert1 acc k) t := rfl
      rw [hstep, ih, mem_insert1]
      simp [List.mem_cons]
      tauto

lemma nodup_foldKeys (ks acc : List (Option PyKey)) (h : acc.Nodup) :
    (foldKeys acc ks).Nodup := by
  induction ks generalizing acc with
  | nil => exact h
  | cons k t ih => exact ih (insert1 acc k) (nodup_insert1 acc k h)

lemma foldKeys_append (acc ks1 ks2 : List (Option PyKey)) :
    foldKeys acc (ks1 ++ ks2) = foldKeys (foldKeys acc ks1) ks2 := by
  simp [foldKeys, List.foldl_append]

lemma keysOf_append (ms1 ms2 : List Record) :
    keysOf (ms1 ++ ms2) = keysOf ms1 ++ keysOf ms2 := by
  simp [keysOf]

lemma mem_keysOf (ms : List Record) (k : Option PyKey) :
    k ∈ keysOf ms ↔ ∃ m ∈ ms, recordKey m = some k := by
  simp [keysOf, List.mem_filterMap]

lemma lastWith_append (ms1 ms2 : List Record) (k : Option PyKey) :
    lastWith (ms1 ++ ms2) k =
      match lastWith ms2 k with
      | some r => some r
      | none => lastWith ms1 k := by
  induction ms1 with
  | nil => cases hl : lastWith ms2 k <;> simp [lastWith, hl]
  | cons m t ih =>
      rw [List.cons_append, lastWith, ih]
      cases hl : lastWith ms2 k <;> cases hl2 : lastWith t k <;>
        simp [lastWith, hl, hl2]

lemma count_keys_values (d : MDict) (hc : Coherent d) (k : Option PyKey) :
    (d.map (fun p => p.2)).countP (fun m => recordKey m == some k)
      = (keys d).count k := by
  induction d with
  | nil => rfl
  | cons a t ih =>
      obtain ⟨ka, va⟩ := a
      have hk : recordKey va = some ka := hc (ka, va) (List.mem_cons_self _ _)
      have hct : Coherent t := fun p hp => hc p (List.mem_cons_of_mem _ hp)
      by_cases h : ka = k
      · simp [List.countP_cons, List.count_cons, keys_cons, hk, ih hct, h]
      · simp [List.countP_cons, List.count_cons, keys_cons, hk, ih hct, h]

lemma count_eq_ite (l : List (Option PyKey)) (h : l.Nodup) (k : Option PyKey) :
    l.count k = if k ∈ l then 1 else 0 := by
  induction l with
  | nil => simp
  | cons a t ih =>
      have ha : a ∉ t := (List.nodup_cons.mp h).1
      have ht : t.Nodup := (List.nodup_cons.mp h).2
      by_cases hk : k = a
      · subst hk
        simp [List.count_cons, ih ht, ha]
      · simp [List.count_cons, ih ht, hk, List.mem_cons]

lemma mem_values (d : MDict) (m : Record) :
    m ∈ d.map (fun p => p.2) ↔ ∃ k, (k, m) ∈ d := by
  rw [List.mem_map]
  constructor
  · rintro ⟨⟨k, v⟩, hp, rfl⟩
    exact ⟨k, hp⟩
  · rintro ⟨k, hp⟩
    exact ⟨(k, m), hp, rfl⟩

lemma filterMap_values_keys (d : MDict) (hc : Coherent d) :
    (d.map (fun p => p.2)).filterMap recordKey = keys d := by
  induction d with
  | nil => rfl
  | cons a t ih =>
      obtain ⟨ka, va⟩ := a
      have hk : recordKey va = some ka := hc (ka, va) (List.mem_cons_self _ _)
      have hct : Coherent t := fun p hp => hc p (List.mem_cons_of_mem _ hp)
      simp [List.filterMap_cons, keys_cons, hk, ih hct]

/-- Under the four phase-result hypotheses, the pipeline is the single merge
of the concatenated phases into a fresh dict, projected to its values. -/
lemma run_etl_pipeline_eq (http : HttpGet) (self : Fetcher)
    {p1 p2 p3 p4 : List Record}
    (h1 : asRecords (fetch_global_top_models http self 1000 "downloads") = some p1)
    (h2 : asRecords (fetch_global_top_models http self 1000 "likes") = some p2)
    (h3 : asRecords (fetch_global_top_models http self 1000 "likes7d") = some p3)
    (h4 : asRecords (fetch_global_top_models http self 100 "createdAt") = some p4) :
    run_etl_pipeline http self =
      (insertPhase [] (p1 ++ p2 ++ p3 ++ p4)).map
        (fun d => d.map (fun p => p.2)) := by
  rw [insertPhase_append, insertPhase_append, insertPhase_append]
  rw [run_etl_pipeline, h1, h2, h3, h4]
  cases hA : insertPhase [] p1 with
  | none => simp [hA]
  | some dA =>
      cases hB : insertPhase dA p2 with
      | none => simp [hA, hB]
      | some dB =>
          cases hC : insertPhase dB p3 with
          | none => simp [hA, hB, hC]
          | some dC =>
              cases hD : insertPhase dC p4 with
              | none => simp [hA, hB, hC, hD]
              | some dD => simp [hA, hB, hC, hD]

/-- Everything the claims need about the merged dict behind a successful
pipeline run. -/
lemma run_etl_merge_dict {http : HttpGet} {self : Fetcher}
    {p1 p2 p3 p4 out : List Record}
    (h1 : asRecords (fetch_global_top_models http self 1000 "downloads") = some p1)
    (h2 : asRecords (fetch_global_top_models http self 1000 "likes") = some p2)
    (h3 : asRecords (fetch_global_top_models http self 1000 "likes7d") = some p3)
    (h4 : asRecords (fetch_global_top_models http self 100 "createdAt") = some p4)
    (h : run_etl_pipeline http self = some out) :
    ∃ d, insertPhase [] (p1 ++ p2 ++ p3 ++ p4) = some d
      ∧ out = d.map (fun p => p.2)
      ∧ Coherent d
      ∧ (keys d).Nodup
      ∧ keys d = foldKeys [] (keysOf (p1 ++ p2 ++ p3 ++ p4))
      ∧ ∀ k, dictGet d k = lastWith (p1 ++ p2 ++ p3 ++ p4) k := by
  rw [run_etl_pipeline_eq http self h1 h2 h3 h4] at h
  cases hD : insertPhase [] (p1 ++ p2 ++ p3 ++ p4) with
  | none =>
      rw [hD] at h
      cases h
  | some d =>
      rw [hD] at h
      injection h with h
      refine ⟨d, rfl, h.symm, coherent_insertPhase hD ?_,
        nodup_keys_insertPhase hD ?_, ?_, ?_⟩
      · intro p hp
        cases hp
      · simp [keys]
      · simpa [keys] using keys_insertPhase hD
      · intro k
        rw [dictGet_insertPhase hD k]
        cases hl : lastWith (p1 ++ p2 ++ p3 ++ p4) k <;> simp [hl, dictGet]

/-!  Claim theorems. -/

/-- C1: for every sequence of (possibly empty) phase results, the collection
returned by `run_etl_pipeline` contains exactly one record for each distinct
identifier value occurring across the four phases' results, and no record
whose identifier did not occur in any phase. -/
theorem run_etl_unique_ids (http : HttpGet) (self : Fetcher)
    (p1 p2 p3 p4 out : List Record)
    (h1 : asRecords (fetch_global_top_models http self 1000 "downloads") = some p1)
    (h2 : asRecords (fetch_global_top_models http self 1000 "likes") = some p2)
    (h3 : asRecords (fetch_global_top_models http self 1000 "likes7d") = some p3)
    (h4 : asRecords (fetch_global_top_models http self 100 "createdAt") = some p4)
    (h : run_etl_pipeline http self = some out) (k : Option PyKey) :
    out.countP (fun m => recordKey m == some k) =
      if (p1 ++ p2 ++ p3 ++ p4).any (fun m => recordKey m == some k)
      then 1 else 0 := by
  obtain ⟨d, hD, hout, hc, hnd, hkeys, hget⟩ :=
    run_etl_merge_dict h1 h2 h3 h4 h
  subst hout
  rw [count_keys_values d hc k, count_eq_ite (keys d) hnd k]
  refine if_congr ?_ rfl rfl
  rw [hkeys, mem_foldKeys, mem_keysOf]
  simp only [List.any_eq_true, beq_iff_eq, List.mem_append, List.not_mem_nil,
    false_or]

/-- C1 witness: the spec scenario instantiated at identifier "a". -/
theorem run_etl_unique_ids_witness :
    ([recA2, recB] : List Record).countP
        (fun m => recordKey m == some (some (PyKey.str "a"))) =
      if ([recA1] ++ [recA2] ++ ([] : List Record) ++ [recB]).any
          (fun m => recordKey m == some (some (PyKey.str "a")))
      then 1 else 0 :=
  run_etl_unique_ids httpScenario fetcher45 [recA1] [recA2] [] [recB]
    [recA2, recB] rfl rfl rfl rfl rfl (some (PyKey.str "a"))

/-- C2: for records sharing an identifier across phases, the final collection
holds the record from the latest phase (last write wins), and on the spec
scenario the result maps "a" to the phase-2 record and "b" to the phase-4
record. -/
theorem run_etl_last_write_wins (http : HttpGet) (self : Fetcher)
    (p1 p2 p3 p4 out : List Record)
    (h1 : asRecords (fetch_global_top_models http self 1000 "downloads") = some p1)
    (h2 : asRecords (fetch_global_top_models http self 1000 "likes") = some p2)
    (h3 : asRecords (fetch_global_top_models http self 1000 "likes7d") = some p3)
    (h4 : asRecords (fetch_global_top_models http self 100 "createdAt") = some p4)
    (h : run_etl_pipeline http self = some out) :
    (∀ m ∈ out, ∃ k, recordKey m = some k ∧
        lastWith (p1 ++ p2 ++ p3 ++ p4) k = some m)
    ∧ run_etl_pipeline httpScenario fetcher45 = some [recA2, recB] := by
  refine ⟨?_, rfl⟩
  intro m hm
  obtain ⟨d, hD, hout, hc, hnd, hkeys, hget⟩ :=
    run_etl_merge_dict h1 h2 h3 h4 h
  subst hout
  obtain ⟨k, hkm⟩ := (mem_values d m).mp hm
  refine ⟨k, hc (k, m) hkm, ?_⟩
  rw [← hget k]
  exact dictGet_eq_some_of_mem d k m hnd hkm

/-- C2 witness: the spec scenario. -/
theorem run_etl_last_write_wins_witness :
    (∀ m ∈ ([recA2, recB] : List Record), ∃ k, recordKey m = some k ∧
        lastWith ([recA1] ++ [recA2] ++ ([] : List Record) ++ [recB]) k = some m)
    ∧ run_etl_pipeline httpScenario fetcher45 = some [recA2, recB] :=
  run_etl_last_write_wins httpScenario fetcher45 [recA1] [recA2] [] [recB]
    [recA2, recB] rfl rfl rfl rfl rfl

/-- C3 counterexample: on a 2xx reply whose decoded body is a JSON object
(not a sequence), `fetch_category_specific` returns the object unchanged,
not an empty sequence: the claimed failure-absorption of malformed bodies
does not hold for this method. -/
theorem fetch_category_specific_non_list_passthrough :
    fetch_category_specific httpErrObj fetcher45 "text-generation" "pytorch" 200
      = Val.obj [("error", Val.str "Invalid username or password.")]
    ∧ Val.obj [("error", Val.str "Invalid username or password.")]
      ≠ Val.list [] :=
  ⟨rfl, fun h => Val.noConfusion h⟩

/-- C3 amended: `fetch_category_specific` absorbs timeouts and exceptions
(non-2xx status, undecodable body) into an empty sequence without raising,
and always uses the fixed 25-second timeout regardless of the fetcher's
configured timeout; but a successfully decoded body is returned as-is even
when its top-level shape is not a sequence. -/
theorem fetch_category_specific_contract (http : HttpGet) (self : Fetcher)
    (pipeline_tag library : String) (limit : Int) :
    (http (catParams pipeline_tag library limit) self.headers 25 = .timeout →
        fetch_category_specific http self pipeline_tag library limit = .list [])
    ∧ (http (catParams pipeline_tag library limit) self.headers 25 = .error →
        fetch_category_specific http self pipeline_tag library limit = .list [])
    ∧ (∀ body, http (catParams pipeline_tag library limit) self.headers 25 = .ok body →
        fetch_category_specific http self pipeline_tag library limit = body)
    ∧ (∀ t : Int,
        fetch_category_specific http ⟨t, self.headers⟩ pipeline_tag library limit
          = fetch_category_specific http self pipeline_tag library limit) := by
  refine ⟨?_, ?_, ?_, ?_⟩
  · intro hh
    simp [fetch_category_specific, hh]
  · intro hh
    simp [fetch_category_specific, hh]
  · intro body hh
    simp [fetch_category_specific, hh]
  · intro t
    rfl

/-- C3 amended witness: a timeout is absorbed into an empty sequence. -/
theorem fetch_category_specific_contract_witness :
    fetch_category_specific httpDown fetcher45 "text-generation" "pytorch" 200
      = Val.list [] :=
  (fetch_category_specific_contract httpDown fetcher45
    "text-generation" "pytorch" 200).1 rfl

/-- C4: if every fetch call fails (timeout or any other exception),
`run_etl_pipeline` returns an empty collection and no exception propagates
(the result is `some`, never the crash value `none`). -/
theorem run_etl_total_failure_empty (http : HttpGet) (self : Fetcher)
    (h : ∀ ps hs t, http ps hs t = .timeout ∨ http ps hs t = .error) :
    run_etl_pipeline http self = some [] := by
  have hf : ∀ limit sort_by,
      fetch_global_top_models http self limit sort_by = [] := by
    intro limit sort_by
    rcases h (globalParams limit sort_by) self.headers self.timeout with hh | hh <;>
      simp [fetch_global_top_models, hh]
  have ha : asRecords ([] : List Val) = some [] := rfl
  simp [run_etl_pipeline, hf, ha, insertPhase_nil]

/-- C4 witness: the all-timeouts world. -/
theorem run_etl_total_failure_empty_witness :
    run_etl_pipeline httpDown fetcher45 = some [] :=
  run_etl_total_failure_empty httpDown fetcher45 (fun _ _ _ => Or.inl rfl)

/-- C5: a 2xx reply whose decoded body is not a sequence makes
`fetch_global_top_models` return an empty sequence, not the body and not a
crash. -/
theorem fetch_global_non_list_empty (http : HttpGet) (self : Fetcher)
    (limit : Int) (sort_by : String) (body : Val)
    (hok : http (globalParams limit sort_by) self.headers self.timeout
      = .ok body)
    (hnl : ∀ vs : List Val, body ≠ .list vs) :
    fetch_global_top_models http self limit sort_by = [] := by
  rw [fetch_global_top_models, hok]
  cases body with
  | list vs => exact absurd rfl (hnl vs)
  | null => rfl
  | bool b => rfl
  | int n => rfl
  | str s => rfl
  | obj fields => rfl

/-- C5 witness: an error-object body yields an empty sequence. -/
theorem fetch_global_non_list_empty_witness :
    fetch_global_top_models httpErrObj fetcher45 1000 "downloads" = [] :=
  fetch_global_non_list_empty httpErrObj fetcher45 1000 "downloads"
    (Val.obj [("error", Val.str "Invalid username or password.")]) rfl
    (fun _ h => Val.noConfusion h)

/-- C6: a record with a missing or null identifier is keyed under the single
`None` sentinel, so at most one such record survives the merge; on a
concrete run, the second malformed record silently overwrites the first. -/
theorem run_etl_null_id_sentinel (http : HttpGet) (self : Fetcher)
    (p1 p2 p3 p4 out : List Record)
    (h1 : asRecords (fetch_global_top_models http self 1000 "downloads") = some p1)
    (h2 : asRecords (fetch_global_top_models http self 1000 "likes") = some p2)
    (h3 : asRecords (fetch_global_top_models http self 1000 "likes7d") = some p3)
    (h4 : asRecords (fetch_global_top_models http self 100 "createdAt") = some p4)
    (h : run_etl_pipeline http self = some out) :
    (∀ m : Record, pyGet m "id" = none ∨ pyGet m "id" = some Val.null →
        recordKey m = some none)
    ∧ out.countP (fun m => recordKey m == some (none : Option PyKey)) ≤ 1
    ∧ run_etl_pipeline httpMalformed fetcher45 = some [recM2] := by
  refine ⟨?_, ?_, rfl⟩
  · intro m hm
    rcases hm with hm | hm <;> simp [recordKey, hm]
  · obtain ⟨d, hD, hout, hc, hnd, hkeys, hget⟩ :=
      run_etl_merge_dict h1 h2 h3 h4 h
    subst hout
    rw [count_keys_values d hc none, count_eq_ite (keys d) hnd none]
    split <;> omega

/-- C6 witness: the malformed-records run. -/
theorem run_etl_null_id_sentinel_witness :
    (∀ m : Record, pyGet m "id" = none ∨ pyGet m "id" = some Val.null →
        recordKey m = some none)
    ∧ ([recM2] : List Record).countP
        (fun m => recordKey m == some (none : Option PyKey)) ≤ 1
    ∧ run_etl_pipeline httpMalformed fetcher45 = some [recM2] :=
  run_etl_null_id_sentinel httpMalformed fetcher45 [recM1, recM2] [] [] []
    [recM2] rfl rfl rfl rfl rfl

/-- C7: `run_etl_pipeline` issues exactly four global fetch requests in the
fixed order — limit 1000 by downloads, limit 1000 by likes, limit 1000 by
likes7d, limit 100 by createdAt — each carrying the query params `limit`,
`sort`, `direction = -1` (descending) and `full = true`; and the pipeline's
result depends on the HTTP world only through those four requests. -/
theorem run_etl_fixed_phase_requests (self : Fetcher) :
    run_etl_requests self =
      [⟨[("limit", Val.int 1000), ("sort", Val.str "downloads"),
         ("direction", Val.int (-1)), ("full", Val.bool true)],
        self.headers, self.timeout⟩,
       ⟨[("limit", Val.int 1000), ("sort", Val.str "likes"),
         ("direction", Val.int (-1)), ("full", Val.bool true)],
        self.headers, self.timeout⟩,
       ⟨[("limit", Val.int 1000), ("sort", Val.str "likes7d"),
         ("direction", Val.int (-1)), ("full", Val.bool true)],
        self.headers, self.timeout⟩,
       ⟨[("limit", Val.int 100), ("sort", Val.str "createdAt"),
         ("direction", Val.int (-1)), ("full", Val.bool true)],
        self.headers, self.timeout⟩]
    ∧ ∀ http1 http2 : HttpGet,
        (∀ r ∈ run_etl_requests self,
            http1 r.params r.headers r.timeout
              = http2 r.params r.headers r.timeout) →
        run_etl_pipeline http1 self = run_etl_pipeline http2 self := by
  refine ⟨rfl, ?_⟩
  intro http1 http2 hagree
  have e1 := hagree (fetch_global_request self 1000 "downloads")
    (by simp [run_etl_requests])
  have e2 := hagree (fetch_global_request self 1000 "likes")
    (by simp [run_etl_requests])
  have e3 := hagree (fetch_global_request self 1000 "likes7d")
    (by simp [run_etl_requests])
  have e4 := hagree (fetch_global_request self 100 "createdAt")
    (by simp [run_etl_requests])
  simp only [fetch_global_request] at e1 e2 e3 e4
  rw [run_etl_pipeline, run_etl_pipeline]
  simp only [fetch_global_top_models]
  rw [e1, e2, e3, e4]

/-- C7 witness: two worlds agreeing on the four issued requests give the
same pipeline result. -/
theorem run_etl_fixed_phase_requests_witness :
    run_etl_pipeline httpDown fetcher45 = run_etl_pipeline httpDown2 fetcher45 :=
  (run_etl_fixed_phase_requests fetcher45).2 httpDown httpDown2
    (by
      intro r hr
      simp [run_etl_requests, fetch_global_request, fetcher45] at hr
      rcases hr with rfl | rfl | rfl | rfl <;> rfl)

/-- C8 counterexample: schema validation accepts an `HFModel` whose
`downloads` (and `likes`) are negative — no non-negativity constraint is
enforced. -/
theorem hfmodel_negative_downloads_accepted :
    HFModel.validate (some "org/model") none none none (some (-5)) (some (-7))
        none none none none 0
      = some ⟨"org/model", none, none, none, -5, -7, false, true, none, 0⟩
    ∧ ¬ ((0 : Int) ≤ -5) :=
  ⟨rfl, by decide⟩

/-- C8 amended: validation enforces no sign constraint — accepted records
carry whatever integers were supplied for `downloads`/`likes` — and the
defaults hold: omitted `downloads`/`likes` become 0, omitted `is_active`
becomes true, omitted `created_at` becomes the record-creation time. -/
theorem hfmodel_validate_defaults (mid : String) (pt ln au : Option String)
    (dl lk : Option Int) (pv ia : Option Bool) (lm ca : Option Timestamp)
    (now : Timestamp) (m : HFModel)
    (h : HFModel.validate (some mid) pt ln au dl lk pv ia lm ca now = some m) :
    m.downloads = dl.getD 0 ∧ m.likes = lk.getD 0
    ∧ m.is_active = ia.getD true ∧ m.created_at = ca.getD now
    ∧ (dl = none → m.downloads = 0) ∧ (lk = none → m.likes = 0)
    ∧ (ia = none → m.is_active = true) ∧ (ca = none → m.created_at = now) := by
  rw [HFModel.validate] at h
  injection h with h
  subst h
  refine ⟨rfl, rfl, rfl, rfl, ?_, ?_, ?_, ?_⟩ <;> rintro rfl <;> rfl

/-- C8 amended witness: an all-defaults record. -/
theorem hfmodel_validate_defaults_witness :
    (⟨"org/model", none, none, none, 0, 0, false, true, none, 7⟩
        : HFModel).downloads = (none : Option Int).getD 0
    ∧ (⟨"org/model", none, none, none, 0, 0, false, true, none, 7⟩
        : HFModel).likes = (none : Option Int).getD 0
    ∧ (⟨"org/model", none, none, none, 0, 0, false, true, none, 7⟩
        : HFModel).is_active = (none : Option Bool).getD true
    ∧ (⟨"org/model", none, none, none, 0, 0, false, true, none, 7⟩
        : HFModel).created_at = (none : Option Timestamp).getD 7
    ∧ ((none : Option Int) = none →
        (⟨"org/model", none, none, none, 0, 0, false, true, none, 7⟩
          : HFModel).downloads = 0)
    ∧ ((none : Option Int) = none →
        (⟨"org/model", none, none, none, 0, 0, false, true, none, 7⟩
          : HFModel).likes = 0)
    ∧ ((none : Option Bool) = none →
        (⟨"org/model", none, none, none, 0, 0, false, true, none, 7⟩
          : HFModel).is_active = true)
    ∧ ((none : Option Timestamp) = none →
        (⟨"org/model", none, none, none, 0, 0, false, true, none, 7⟩
          : HFModel).created_at = 7) :=
  hfmodel_validate_defaults "org/model" none none none none none none none
    none none 7 ⟨"org/model", none, none, none, 0, 0, false, true, none, 7⟩ rfl

/-- C9: the output collection is ordered by first occurrence of each
identifier across the phases in processing order: its key sequence equals
the first-occurrence deduplication of the concatenated phases' keys, so an
overwrite keeps the identifier's original position. -/
theorem run_etl_first_occurrence_order (http : HttpGet) (self : Fetcher)
    (p1 p2 p3 p4 out : List Record)
    (h1 : asRecords (fetch_global_top_models http self 1000 "downloads") = some p1)
    (h2 : asRecords (fetch_global_top_models http self 1000 "likes") = some p2)
    (h3 : asRecords (fetch_global_top_models http self 1000 "likes7d") = some p3)
    (h4 : asRecords (fetch_global_top_models http self 100 "createdAt") = some p4)
    (h : run_etl_pipeline http self = some out) :
    out.filterMap recordKey = foldKeys [] (keysOf (p1 ++ p2 ++ p3 ++ p4)) := by
  obtain ⟨d, hD, hout, hc, hnd, hkeys, hget⟩ :=
    run_etl_merge_dict h1 h2 h3 h4 h
  subst hout
  rw [filterMap_values_keys d hc, hkeys]

/-- C9 witness: the spec scenario — key "a" keeps its phase-1 position after
the phase-2 overwrite, "b" follows. -/
theorem run_etl_first_occurrence_order_witness :
    ([recA2, recB] : List Record).filterMap recordKey
      = foldKeys [] (keysOf ([recA1] ++ [recA2] ++ ([] : List Record) ++ [recB])) :=
  run_etl_first_occurrence_order httpScenario fetcher45 [recA1] [recA2] []
    [recB] [recA2, recB] rfl rfl rfl rfl rfl

/-- C10: no `ModelFetcher` operation mutates the fetcher's configuration —
each method leaves the state exactly as constructed — and `run_etl_pipeline`
keeps no state between invocations: a second run on the post-state returns
the same collection. -/
theorem modelfetcher_no_config_mutation (http : HttpGet) (self : Fetcher)
    (limit : Int) (sort_by pipeline_tag library : String) (limit2 : Int) :
    ((fetch_global_top_modelsM http limit sort_by).run self).2 = self
    ∧ ((fetch_category_specificM http pipeline_tag library limit2).run self).2
        = self
    ∧ ((run_etl_pipelineM http).run self).2 = self
    ∧ ((run_etl_pipelineM http).run (((run_etl_pipelineM http).run self).2)).1
        = ((run_etl_pipelineM http).run self).1 :=
  ⟨rfl, rfl, rfl, rfl⟩

end HFTracker
